import Mathlib

/-!
Shallow embedding of the tabular data-quality pipeline
(`data_cleaner.py`, `data_overview.py`, `pipeline_orchestrator.py`).

Modelling conventions:
* A pandas cell is `Cell`: `null` models `NaN`/`None`, `num q` a numeric
  value (floats are modelled exactly by rationals), `str s` a Python string.
* A `DataFrame` is row-major: parallel lists of column names and dtypes,
  plus a list of rows.  Pandas dtypes are reduced to the two-point
  `Dtype` (`numeric` vs `text`), which is all `is_numeric_dtype` /
  `select_dtypes` checks in the source distinguish.
* IEEE `NaN` comparison semantics are embedded explicitly: any comparison
  involving a missing value (`Cell.null`, or a missing quantile/statistic,
  represented with `Option`) evaluates to `false`, exactly as `NaN < x`
  does in numpy/pandas.
* `x / 0 = 0` for rationals in Lean; wherever the source can divide by
  zero this is noted and shown not to affect the stated properties.
-/

/- Batteries marks the `Rat` field operations `@[irreducible]`; restoring the
default reducibility lets `decide` evaluate concrete rational arithmetic.
Proof checking is unaffected: the kernel ignores reducibility attributes. -/
set_option allowUnsafeReducibility true in
attribute [semireducible] Rat.mul Rat.add Rat.div Rat.inv Rat.neg Rat.sub Rat.ofScientific

namespace Pipeline

/-- A single cell of a pandas DataFrame: missing (`NaN`/`None`), numeric, or string. -/
inductive Cell where
  | null : Cell
  | num : ℚ → Cell
  | str : String → Cell
deriving DecidableEq, Repr

/-- The dtype information the source consults (`is_numeric_dtype`, `select_dtypes`). -/
inductive Dtype where
  | numeric : Dtype
  | text : Dtype
deriving DecidableEq, Repr

/-- One row of a DataFrame, one `Cell` per column. -/
abbrev Row := List Cell

/-- Row-major DataFrame: column names, parallel dtypes, and the rows. -/
structure DataFrame where
  colNames : List String
  dtypes : List Dtype
  rows : List Row
deriving DecidableEq, Repr

/-- The numeric content of a cell, `none` for nulls and strings
(pandas numeric reductions skip `NaN`). -/
def toNum : Cell → Option ℚ
  | Cell.num q => some q
  | _ => none

/-- The non-null numeric values of a column, in order (pandas `dropna` on a
numeric Series). -/
def numVals (cells : List Cell) : List ℚ :=
  cells.filterMap toNum

/-- Index of the first occurrence of a name in a list of names. -/
def idxOfName (c : String) : List String → Option ℕ
  | [] => none
  | n :: ns => if n = c then some 0 else (idxOfName c ns).map (· + 1)

/-- Index of a column name (first occurrence), as pandas column lookup does. -/
def colIdx (df : DataFrame) (c : String) : Option ℕ :=
  idxOfName c df.colNames

/-- The cells of the column at index `i` (`df[col]` as a list of cells). -/
def getColIdx (df : DataFrame) (i : ℕ) : List Cell :=
  df.rows.map (fun r => r.getD i Cell.null)

/-- Dtype of the column at index `i`. -/
def dtypeAt (df : DataFrame) (i : ℕ) : Option Dtype :=
  df.dtypes.get? i

/-- Column names of numeric dtype, in order
(`select_dtypes(include=[np.number]).columns.tolist()`). -/
def numericColNames (df : DataFrame) : List String :=
  (df.colNames.zip df.dtypes).filterMap
    (fun p => if p.2 = Dtype.numeric then some p.1 else none)

/-- Non-null numeric values of a column, sorted ascending
(the order statistics `Series.quantile` works over). -/
def sortedVals (cells : List Cell) : List ℚ :=
  List.insertionSort (· ≤ ·) (numVals cells)

/-- Linear interpolation into a sorted list at fractional position `pos`
(numpy/pandas `interpolation='linear'`): with `i = ⌊pos⌋`,
the value is `s[i] + (pos - i) * (s[i+1] - s[i])`. -/
def interpAt (s : List ℚ) (pos : ℚ) : ℚ :=
  s.getD (⌊pos⌋).toNat 0 +
    (pos - ((⌊pos⌋).toNat : ℚ)) *
      (s.getD ((⌊pos⌋).toNat + 1) (s.getD (⌊pos⌋).toNat 0) - s.getD (⌊pos⌋).toNat 0)

/-- `Series.quantile(q)`: drop nulls, sort, linearly interpolate at
`q * (n - 1)`; `none` (pandas `NaN`) when there are no non-null values. -/
def quantile (cells : List Cell) (q : ℚ) : Option ℚ :=
  let s := sortedVals cells
  if s.isEmpty then none else some (interpAt s (q * ((s.length : ℚ) - 1)))

/-- IQR lower bound `Q1 - m * (Q3 - Q1)`; `none` models the `NaN` bound a
column with no non-null values produces. -/
def iqrLower (cells : List Cell) (m : ℚ) : Option ℚ :=
  (quantile cells (1/4)).bind fun q1 =>
    (quantile cells (3/4)).map fun q3 => q1 - m * (q3 - q1)

/-- IQR upper bound `Q3 + m * (Q3 - Q1)`; `none` models a `NaN` bound. -/
def iqrUpper (cells : List Cell) (m : ℚ) : Option ℚ :=
  (quantile cells (1/4)).bind fun q1 =>
    (quantile cells (3/4)).map fun q3 => q3 + m * (q3 - q1)

/-- The row-keeping test of `remove_outliers`, method `'iqr'`:
`(x >= lower) & (x <= upper)` with `NaN` comparisons false, so a null cell
(or a `NaN` bound) never passes.  Strings cannot occur in the numeric-dtype
columns this is applied to; they get the same `false` a `NaN` comparison would. -/
def iqrKeep (lo hi : Option ℚ) (c : Cell) : Bool :=
  match c, lo, hi with
  | Cell.num q, some l, some u => decide (l ≤ q) && decide (q ≤ u)
  | _, _, _ => false

/-- Mean over the non-null values (`Series.mean()`, which skips `NaN`);
`none` models the `NaN` a fully-null column yields. -/
def meanVal (cells : List Cell) : Option ℚ :=
  if (numVals cells).isEmpty then none
  else some ((numVals cells).sum / ((numVals cells).length : ℚ))

/-- Sample variance over the non-null values (`Series.std()` squared,
`ddof=1`); `none` models the `NaN` std of fewer than two values. -/
def sampleVar (cells : List Cell) : Option ℚ :=
  let vs := numVals cells
  if vs.length ≤ 1 then none
  else
    let μ := vs.sum / (vs.length : ℚ)
    some ((vs.map (fun x => (x - μ) ^ 2)).sum / ((vs.length : ℚ) - 1))

/-- The row-keeping test of `remove_outliers`, method `'zscore'`:
`|x - mean| / std < threshold` with IEEE semantics.  For `std > 0` and
`threshold > 0` this is equivalent to `(x - mean)² < threshold² · var`;
when `std = 0` or `std = NaN` the z-score is `NaN`/`inf` and the
comparison is false, and when `threshold ≤ 0` it is false since the
z-score is nonnegative.  The equivalence avoids the irrational `√var`. -/
def zKeep (μ v : Option ℚ) (threshold : ℚ) (c : Cell) : Bool :=
  match c, μ, v with
  | Cell.num q, some m, some var =>
      decide (0 < threshold) && decide (var ≠ 0) &&
        decide ((q - m) ^ 2 < threshold ^ 2 * var)
  | _, _, _ => false

/-- Keep only the rows passing `keep` on the cell of column index `i`. -/
def filterByCol (df : DataFrame) (i : ℕ) (keep : Cell → Bool) : DataFrame :=
  { df with rows := df.rows.filter (fun r => keep (r.getD i Cell.null)) }

/-- One iteration of the `remove_outliers` loop for column `col`:
skipped unless the column exists and has numeric dtype; for `'iqr'` the
bounds come from the quantiles of the *current* (already filtered) data;
for `'zscore'` mean/std likewise; any other method string does nothing
(the `if/elif` chain falls through). -/
def removeOutliersStep (method : String) (threshold : ℚ) (df : DataFrame)
    (col : String) : DataFrame :=
  match colIdx df col with
  | none => df
  | some i =>
    if dtypeAt df i = some Dtype.numeric then
      if method = "iqr" then
        let cells := getColIdx df i
        filterByCol df i (iqrKeep (iqrLower cells threshold) (iqrUpper cells threshold))
      else if method = "zscore" then
        let cells := getColIdx df i
        filterByCol df i (zKeep (meanVal cells) (sampleVar cells) threshold)
      else df
    else df

/-- The columns `remove_outliers` checks: all numeric columns when
`columns is None`, else the given list. -/
def resolveOutlierCols (df : DataFrame) (columns : Option (List String)) :
    List String :=
  match columns with
  | none => numericColNames df
  | some cs => cs

/-- `DataCleaner.remove_outliers` on the data: resolve `columns=None` to all
numeric columns, then filter column by column (sequential re-filtering,
exactly as the source reassigns `self.data` inside the loop). -/
def removeOutliersData (columns : Option (List String)) (method : String)
    (threshold : ℚ) (df : DataFrame) : DataFrame :=
  (resolveOutlierCols df columns).foldl (removeOutliersStep method threshold) df

/-- The `DataCleaner` state: the held dataset plus the append-only
`cleaning_history` log. -/
structure Cleaner where
  data : DataFrame
  history : List String
deriving DecidableEq, Repr

/-- `remove_duplicates` keep rule (`'first' | 'last' | False` passed through
to pandas `drop_duplicates`). -/
inductive Keep where
  | first : Keep
  | last : Keep
  | none : Keep
deriving DecidableEq, Repr

/-- Duplicate key of a row: the whole row (`subset=None`) or the cells of the
subset columns.  Pandas compares `NaN` equal to `NaN` here, as `Cell` equality
does.  (A missing subset column raises `KeyError` in pandas; no claim
exercises that, and it is modelled by skipping the missing name.) -/
def dupKey (df : DataFrame) (subset : Option (List String)) (r : Row) : List Cell :=
  match subset with
  | Option.none => r
  | some cols => cols.filterMap (fun c => (colIdx df c).map (fun i => r.getD i Cell.null))

/-- Keep the rows whose key is unseen so far (pandas
`drop_duplicates(keep='first')` below runs this with no keys seen yet),
preserving order. -/
def dedupFirstAux {α : Type} [DecidableEq α] (key : Row → α) :
    List α → List Row → List Row
  | _, [] => []
  | seen, r :: rs =>
    if key r ∈ seen then dedupFirstAux key seen rs
    else r :: dedupFirstAux key (key r :: seen) rs

/-- Keep the first row of every duplicate group, preserving order. -/
def dedupFirst {α : Type} [DecidableEq α] (key : Row → α) (rows : List Row) :
    List Row :=
  dedupFirstAux key [] rows

/-- Rows selected by the requested keep rule, preserving order. -/
def dedupRows {α : Type} [DecidableEq α] (key : Row → α) (keep : Keep)
    (rows : List Row) : List Row :=
  match keep with
  | Keep.first => dedupFirst key rows
  | Keep.last => (dedupFirst key rows.reverse).reverse
  | Keep.none => rows.filter (fun r => rows.countP (fun x => key x = key r) = 1)

/-- `DataCleaner.remove_duplicates`: drop duplicate rows, then append the
one summary entry. -/
def removeDuplicates (subset : Option (List String)) (keep : Keep)
    (st : Cleaner) : Cleaner :=
  let before := st.data.rows.length
  let rows := dedupRows (dupKey st.data subset) keep st.data.rows
  { data := { st.data with rows := rows },
    history := st.history ++
      ["Removed " ++ toString (before - rows.length) ++ " duplicate rows"] }

/-- Column indices `dropna` considers: the subset columns when a non-empty
list is given (Python truthiness: `if columns:`), else all columns. -/
def nullCheckIdxs (df : DataFrame) (columns : Option (List String)) : List ℕ :=
  match columns with
  | some (c :: cs) => (c :: cs).filterMap (colIdx df)
  | _ => List.range df.colNames.length

/-- Number of non-null cells of a row at the given column indices. -/
def rowNonNullCount (r : Row) (idxs : List ℕ) : ℕ :=
  idxs.countP (fun i => r.getD i Cell.null ≠ Cell.null)

/-- `DataCleaner.remove_nulls`: `dropna` with optional subset/threshold.
`threshold = some 0` behaves like `None` (Python truthiness `if threshold:`). -/
def removeNulls (columns : Option (List String)) (threshold : Option ℕ)
    (st : Cleaner) : Cleaner :=
  let idxs := nullCheckIdxs st.data columns
  let keepRow : Row → Bool := fun r =>
    match threshold with
    | some (t + 1) => decide (t + 1 ≤ rowNonNullCount r idxs)
    | _ => decide (rowNonNullCount r idxs = idxs.length)
  let before := st.data.rows.length
  let rows := st.data.rows.filter keepRow
  { data := { st.data with rows := rows },
    history := st.history ++
      ["Removed " ++ toString (before - rows.length) ++ " rows with null values"] }

/-- Replace the cell at column index `i` of each row via `f`. -/
def mapColCells (df : DataFrame) (i : ℕ) (f : Cell → Cell) : DataFrame :=
  { df with rows := df.rows.map (fun r => r.set i (f (r.getD i Cell.null))) }

/-- `fillna(v)` on one cell. -/
def fillCell (v : Cell) (c : Cell) : Cell :=
  match c with
  | Cell.null => v
  | c => c

/-- Median = `quantile(0.5)` with linear interpolation, which is exactly
pandas `Series.median` (middle value, or mean of the two middle values). -/
def medianVal (cells : List Cell) : Option ℚ :=
  quantile cells (1/2)

/-- A linear order on cells mirroring how pandas sorts the candidates that
`Series.mode()` returns (ascending); only homogeneous columns reach this in
the source, where it is the numeric (or lexicographic string) order. -/
def cellLe (a b : Cell) : Bool :=
  match a, b with
  | Cell.null, _ => true
  | _, Cell.null => false
  | Cell.num p, Cell.num q => decide (p ≤ q)
  | Cell.num _, Cell.str _ => true
  | Cell.str _, Cell.num _ => false
  | Cell.str s, Cell.str t => decide (s ≤ t)

/-- `Series.mode()[0]`: the smallest among the most frequent non-null
values; `none` when the column has no non-null value (`mode()` empty). -/
def modeCell (cells : List Cell) : Option Cell :=
  let vals := cells.filter (fun c => c ≠ Cell.null)
  let best := vals.filter
    (fun c => ∀ d ∈ vals, vals.countP (fun x => x = d) ≤ vals.countP (fun x => x = c))
  (List.insertionSort (fun a b => cellLe a b = true) best).head?

/-- Forward fill of one column: each null takes the nearest prior non-null
value; leading nulls stay null (`fillna(method='ffill')`). -/
def ffillList (carry : Option Cell) : List Cell → List Cell
  | [] => []
  | Cell.null :: cs =>
      (match carry with | some v => v | Option.none => Cell.null) :: ffillList carry cs
  | c :: cs => c :: ffillList (some c) cs

/-- Backward fill of one column (`fillna(method='bfill')`). -/
def bfillList (cells : List Cell) : List Cell :=
  (ffillList Option.none cells.reverse).reverse

/-- Replace the whole column at index `i` by `cells` (row by row). -/
def setColCells (df : DataFrame) (i : ℕ) (cells : List Cell) : DataFrame :=
  { df with rows := df.rows.zipWith (fun r c => r.set i c) cells }

/-- One column of the `fill_nulls` method branch: `mean`/`median` fill every
null with the statistic of the column (a `NaN` statistic fills nothing, as
`fillna(NaN)` does); `mode` falls back to `value` on an all-null column;
`forward`/`backward` propagate; any other method string matches no `elif`
and does nothing. -/
def fillMethodStep (method : String) (value : Cell) (df : DataFrame)
    (col : String) : DataFrame :=
  match colIdx df col with
  | Option.none => df
  | some i =>
    if method = "mean" then
      match meanVal (getColIdx df i) with
      | some μ => mapColCells df i (fillCell (Cell.num μ))
      | Option.none => df
    else if method = "median" then
      match medianVal (getColIdx df i) with
      | some μ => mapColCells df i (fillCell (Cell.num μ))
      | Option.none => df
    else if method = "mode" then
      mapColCells df i (fillCell
        (match modeCell (getColIdx df i) with
          | some m => m
          | Option.none => value))
    else if method = "forward" then
      setColCells df i (ffillList Option.none (getColIdx df i))
    else if method = "backward" then
      setColCells df i (bfillList (getColIdx df i))
    else df

/-- Fill nulls of every cell of the frame with `v` (`df.fillna(v)`). -/
def fillAllValue (v : Cell) (df : DataFrame) : DataFrame :=
  { df with rows := df.rows.map (fun r => r.map (fillCell v)) }

/-- Forward/backward fill every column of the frame. -/
def fillAllDirectional (method : String) (df : DataFrame) : DataFrame :=
  (List.range df.colNames.length).foldl
    (fun d i =>
      if method = "forward" then setColCells d i (ffillList Option.none (getColIdx d i))
      else setColCells d i (bfillList (getColIdx d i)))
    df

/-- `DataCleaner.fill_nulls(value, columns, method)`.  Python truthiness is
preserved: an empty or absent method string selects the value branch, an
empty or absent columns list selects the whole-frame branch.  With a method
but no columns, only `'forward'`/`'backward'` do anything (the source has no
whole-frame `mean`/`median`/`mode` case).  One log entry is appended
unconditionally. -/
def fillNulls (value : Cell) (columns : Option (List String))
    (method : Option String) (st : Cleaner) : Cleaner :=
  let m := match method with | some s => s | Option.none => ""
  let df :=
    if m ≠ "" then
      match columns with
      | some (c :: cs) => (c :: cs).foldl (fillMethodStep m value) st.data
      | _ =>
        if m = "forward" ∨ m = "backward" then fillAllDirectional m st.data
        else st.data
    else
      match columns with
      | some (c :: cs) =>
          (c :: cs).foldl
            (fun d col =>
              match colIdx d col with
              | some i => mapColCells d i (fillCell value)
              | Option.none => d)
            st.data
      | _ => fillAllValue value st.data
  { data := df,
    history := st.history ++ ["Filled null values using " ++
      (match method with | some s => s | Option.none => "value")] }

/-- `DataCleaner.remove_outliers` with the log append. -/
def removeOutliers (columns : Option (List String)) (method : String)
    (threshold : ℚ) (st : Cleaner) : Cleaner :=
  let before := st.data.rows.length
  let df := removeOutliersData columns method threshold st.data
  { data := df,
    history := st.history ++
      ["Removed " ++ toString (before - df.rows.length) ++
        " outlier rows using " ++ method ++ " method"] }

/-- Characters kept by `re.sub(r'[^a-z0-9_]', '', name)`: the codes
97–122 are `a`–`z`, 48–57 are `0`–`9`, and 95 is `_`. -/
def keepIdentChar (c : Char) : Bool :=
  (decide (97 ≤ c.toNat) && decide (c.toNat ≤ 122)) ||
    (decide (48 ≤ c.toNat) && decide (c.toNat ≤ 57)) || decide (c.toNat = 95)

/-- Python `str.strip()`: drop leading and trailing whitespace. -/
def stripEnds (s : List Char) : List Char :=
  ((s.dropWhile Char.isWhitespace).reverse.dropWhile Char.isWhitespace).reverse

/-- Python `str.replace(a, b)` for single-character patterns. -/
def replaceChar (a b : Char) (s : List Char) : List Char :=
  s.map (fun c => if c = a then b else c)

/-- The per-name transform `standardize_column_names` INTENDS:
`col.lower().strip().replace(' ', '_').replace('-', '_')` followed by
`re.sub(r'[^a-z0-9_]', '', ·)`.  (`Char.toLower` is ASCII, which covers the
character classes the regex and the replacements operate on.)
NOTE: the source never executes this on any name — `data_cleaner.py` does
not import `re`, so line 189 raises `NameError` whenever the loop body runs;
the actual execution is modelled by `standardizeColumnNamesRun` below. -/
def stdName (s : String) : String :=
  String.mk
    ((replaceChar '-' '_' (replaceChar ' ' '_' (stripEnds (s.data.map Char.toLower)))).filter
      keepIdentChar)

/-- The intended effect of `DataCleaner.standardize_column_names`: rename
every column through `stdName` and append the one log entry.  This is the
transform the source means to apply; see `standardizeColumnNamesRun` for
what actually happens at runtime (`re` is never imported). -/
def standardizeColumnNames (st : Cleaner) : Cleaner :=
  { data := { st.data with colNames := st.data.colNames.map stdName },
    history := st.history ++ ["Standardized column names"] }

/-- What `DataCleaner.standardize_column_names` actually does when run:
the per-column loop calls `re.sub` with `re` undefined, so on any frame with
at least one column the first iteration raises `NameError` before anything
is renamed or logged; with zero columns the loop body never runs, the empty
rename is a no-op, and the one log entry is appended. -/
def standardizeColumnNamesRun (st : Cleaner) : Except String Cleaner :=
  match st.data.colNames with
  | [] =>
    Except.ok { data := st.data, history := st.history ++ ["Standardized column names"] }
  | _ :: _ => Except.error "NameError: name re is not defined"

/-- `DataCleaner.rename_columns`: rename through the mapping (present keys
only), one log entry. -/
def renameColumns (m : List (String × String)) (st : Cleaner) : Cleaner :=
  { data := { st.data with
      colNames := st.data.colNames.map (fun n => (List.lookup n m).getD n) },
    history := st.history ++ ["Renamed " ++ toString m.length ++ " columns"] }

/-- Keep the entries of `xs` whose mask bit is `true` (column projection). -/
def maskFilter {α : Type} : List Bool → List α → List α
  | b :: bs, x :: xs => if b then x :: maskFilter bs xs else maskFilter bs xs
  | _, _ => []

/-- `DataCleaner.drop_columns`: drop the listed columns that exist, count
them in the log entry. -/
def dropColumns (columns : List String) (st : Cleaner) : Cleaner :=
  let present := columns.filter (fun c => st.data.colNames.contains c)
  let mask := st.data.colNames.map (fun n => !(columns.contains n))
  { data := { colNames := maskFilter mask st.data.colNames,
              dtypes := maskFilter mask st.data.dtypes,
              rows := st.data.rows.map (maskFilter mask) },
    history := st.history ++ ["Dropped " ++ toString present.length ++ " columns"] }

/-- `astype(str)` of one cell (`NaN` becomes the string `"nan"`; the numeric
repr is modelled by the rational's `toString`). -/
def cellStr : Cell → String
  | Cell.null => "nan"
  | Cell.num q => toString q
  | Cell.str s => s

/-- One-cell coercion for `fix_column_types`.  `astype(str)` always
succeeds; numeric coercion keeps nulls and numbers and must parse every
string cell (numeric parsing is modelled by integer parsing — no claim
depends on the parsable set). -/
def castCell (d : Dtype) : Cell → Option Cell
  | Cell.null => some Cell.null
  | Cell.num q =>
      some (if d = Dtype.text then Cell.str (toString q) else Cell.num q)
  | Cell.str s =>
      if d = Dtype.text then some (Cell.str s)
      else (String.toInt? s).map (fun n => Cell.num (n : ℚ))

/-- Whole-column coercion: fails (pandas raises, the source catches and
warns) iff any single cell fails. -/
def tryCastCol (d : Dtype) (cells : List Cell) : Option (List Cell) :=
  cells.mapM (castCell d)

/-- One iteration of `fix_column_types`: a missing column is skipped, a
failed coercion is only warned about (no log entry, no data change), a
successful coercion replaces the column, retypes it, and appends one entry. -/
def fixStep (st : Cleaner) (p : String × Dtype) : Cleaner :=
  match colIdx st.data p.1 with
  | Option.none => st
  | some i =>
    match tryCastCol p.2 (getColIdx st.data i) with
    | some cells =>
        { data := { setColCells st.data i cells with dtypes := st.data.dtypes.set i p.2 },
          history := st.history ++ ["Changed " ++ p.1 ++ " type"] }
    | Option.none => st

/-- `DataCleaner.fix_column_types` over the (ordered) mapping. -/
def fixColumnTypes (m : List (String × Dtype)) (st : Cleaner) : Cleaner :=
  m.foldl fixStep st

/-- The number of columns `fix_column_types` coerces successfully, mirroring
the sequential evaluation (a repeated name is re-attempted on the already
coerced data). -/
def castSuccessCount : List (String × Dtype) → DataFrame → ℕ
  | [], _ => 0
  | p :: rest, df =>
    match colIdx df p.1 with
    | Option.none => castSuccessCount rest df
    | some i =>
      match tryCastCol p.2 (getColIdx df i) with
      | some cells =>
          1 + castSuccessCount rest
            { setColCells df i cells with dtypes := df.dtypes.set i p.2 }
      | Option.none => castSuccessCount rest df

/-- Column names of text dtype (`select_dtypes(include=['object'])`). -/
def textColNames (df : DataFrame) : List String :=
  (df.colNames.zip df.dtypes).filterMap
    (fun p => if p.2 = Dtype.text then some p.1 else none)

/-- Characters kept by `str.replace(r'[^a-zA-Z0-9\s]', '', regex=True)`. -/
def keepTextChar (c : Char) : Bool :=
  (decide ('a' ≤ c) && decide (c ≤ 'z')) || (decide ('A' ≤ c) && decide (c ≤ 'Z')) ||
    (decide ('0' ≤ c) && decide (c ≤ '9')) || c.isWhitespace

/-- The per-cell pipeline of `clean_text_columns`: `astype(str)` (when a
transforming flag is set), optional lowercase, optional special-character
removal, and the final `.str.strip()`. -/
def cleanTextCell (lowercase stripSpec : Bool) (c : Cell) : Cell :=
  if lowercase || stripSpec then
    let s0 := (cellStr c).data
    let s1 := if lowercase then s0.map Char.toLower else s0
    let s2 := if stripSpec then s1.filter keepTextChar else s1
    Cell.str (String.mk (stripEnds s2))
  else
    match c with
    | Cell.str s => Cell.str (String.mk (stripEnds s.data))
    | c => c

/-- `DataCleaner.clean_text_columns`: `columns=None` resolves to the text
columns; each present column is transformed (and is string-typed
afterwards); one log entry counts the requested list. -/
def cleanTextColumns (columns : Option (List String)) (lowercase stripSpec : Bool)
    (st : Cleaner) : Cleaner :=
  let cols := match columns with
    | Option.none => textColNames st.data
    | some cs => cs
  let df := cols.foldl
    (fun d col =>
      match colIdx d col with
      | some i =>
          { mapColCells d i (cleanTextCell lowercase stripSpec) with
            dtypes := if lowercase || stripSpec then d.dtypes.set i Dtype.text else d.dtypes }
      | Option.none => d)
    st.data
  { data := df,
    history := st.history ++ ["Cleaned " ++ toString cols.length ++ " text columns"] }

/-- `min` on ℚ, spelled out so that concrete values evaluate by reduction. -/
def ratMin (a b : ℚ) : ℚ := if a ≤ b then a else b

/-- `max` on ℚ, spelled out so that concrete values evaluate by reduction. -/
def ratMax (a b : ℚ) : ℚ := if b ≤ a then a else b

/-- `x < lower_bound` with `NaN`-false semantics. -/
def belowLo (lo : Option ℚ) (c : Cell) : Bool :=
  match c, lo with
  | Cell.num q, some l => decide (q < l)
  | _, _ => false

/-- `x > upper_bound` with `NaN`-false semantics. -/
def aboveHi (hi : Option ℚ) (c : Cell) : Bool :=
  match c, hi with
  | Cell.num q, some u => decide (u < q)
  | _, _ => false

/-- `np.clip(x, lo, hi)` on one cell; a `NaN` anywhere propagates to `NaN`
(string cells cannot occur in the numeric columns this runs on). -/
def clipCell (lo hi : Option ℚ) : Cell → Cell
  | Cell.num q =>
    match lo, hi with
    | some l, some h => Cell.num (ratMin h (ratMax l q))
    | _, _ => Cell.null
  | _ => Cell.null

/-- The replacement value of `handle_outliers(action='replace')`: the column
median (`NaN` when the column has no non-null values). -/
def hoMedian (cells : List Cell) : Cell :=
  match medianVal cells with
  | some m => Cell.num m
  | Option.none => Cell.null

/-- `DataCleaner.handle_outliers(column, method, action)`.
With `method='iqr'` the source computes the 1.5-IQR bounds (raising
`KeyError` on a missing column) and then dispatches on the action, raising
`ValueError` on an unknown action.  With `method='zscore'` the source
evaluates `stats.zscore` (line 246) — but `stats` is never imported in
`data_cleaner.py`, and Python resolves the callee before its arguments, so
that branch unconditionally raises `NameError` before the column or the
action is examined.  Any other method string raises `ValueError`.
Nothing is mutated before a raise, so the functional `Except` result models
the state exactly (an error leaves the caller's `Cleaner` as it was).
No log entry is appended on any path — faithful to the source. -/
def handleOutliers (column method action : String) (st : Cleaner) :
    Except String Cleaner :=
  if method = "iqr" then
    match colIdx st.data column with
    | Option.none => Except.error ("KeyError: " ++ column)
    | some i =>
      if action = "remove" then
        Except.ok { st with data :=
          { st.data with rows := st.data.rows.filter (fun r =>
              !(belowLo (iqrLower (getColIdx st.data i) (3/2)) (r.getD i Cell.null) ||
                aboveHi (iqrUpper (getColIdx st.data i) (3/2)) (r.getD i Cell.null))) } }
      else if action = "replace" then
        Except.ok { st with data := mapColCells st.data i (fun c =>
          if belowLo (iqrLower (getColIdx st.data i) (3/2)) c ||
              aboveHi (iqrUpper (getColIdx st.data i) (3/2)) c
          then hoMedian (getColIdx st.data i) else c) }
      else if action = "cap" then
        Except.ok { st with data := mapColCells st.data i (clipCell
          (iqrLower (getColIdx st.data i) (3/2)) (iqrUpper (getColIdx st.data i) (3/2))) }
      else Except.error "action must be remove, replace, or cap"
  else if method = "zscore" then
    Except.error "NameError: name stats is not defined"
  else Except.error "method must be iqr or zscore"

/-- Total number of null cells (`data.isnull().sum().sum()`). -/
def totalNullCount (df : DataFrame) : ℕ :=
  (df.rows.map (fun r => r.countP (fun c => c = Cell.null))).sum

/-- `data.duplicated().sum()`: the rows equal to an earlier row. -/
def dupRowCount (df : DataFrame) : ℕ :=
  df.rows.length - (dedupFirst id df.rows).length

/-- Null percentage of `analyze_data_quality`:
`nulls / (rows * cols) * 100`.  (The source divides by zero on an empty
frame, giving `NaN`; in ℚ the quotient is 0.  Either way the clamped score
below is 100 there, since `min(100, NaN)` is 100 in Python.) -/
def nullPct (df : DataFrame) : ℚ :=
  ((totalNullCount df : ℚ) / ((df.rows.length : ℚ) * (df.colNames.length : ℚ))) * 100

/-- Duplicate percentage of `analyze_data_quality`, zero-guarded as in the
source. -/
def dupPct (df : DataFrame) : ℚ :=
  if 0 < df.rows.length then ((dupRowCount df : ℚ) / (df.rows.length : ℚ)) * 100 else 0

/-- The aggregate quality score of `DataPipeline.analyze_data_quality`:
`max(0, min(100, 100 - null_pct*0.5 - dup_pct*0.5))`. -/
def qualityScore (df : DataFrame) : ℚ :=
  ratMax 0 (ratMin 100 (100 - nullPct df * (1/2) - dupPct df * (1/2)))

/-- The count of values a column's IQR filter flags (fails to keep) at
multiplier `m` — the per-column removal count of `remove_outliers`. -/
def iqrFlaggedCount (cells : List Cell) (m : ℚ) : ℕ :=
  cells.countP (fun c => !(iqrKeep (iqrLower cells m) (iqrUpper cells m) c))

/-- The spec's worked example: single numeric column `A = [1,2,3,4,100]`. -/
def dfExample : DataFrame :=
  { colNames := ["A"], dtypes := [Dtype.numeric],
    rows := [[Cell.num 1], [Cell.num 2], [Cell.num 3], [Cell.num 4], [Cell.num 100]] }

/-- The column `A` of `dfExample`. -/
def colExample : List Cell := getColIdx dfExample 0

/-- A constant numeric column `A = [5,5,5]` (sample standard deviation 0). -/
def dfConst : DataFrame :=
  { colNames := ["A"], dtypes := [Dtype.numeric],
    rows := [[Cell.num 5], [Cell.num 5], [Cell.num 5]] }

/-- A small clean frame `A = [1,2,3]` (no nulls, no duplicates). -/
def dfSmall : DataFrame :=
  { colNames := ["A"], dtypes := [Dtype.numeric],
    rows := [[Cell.num 1], [Cell.num 2], [Cell.num 3]] }

/-- A fresh cleaner over `dfSmall`. -/
def stSmall : Cleaner := { data := dfSmall, history := [] }

/-- A numeric column with one null: `A = [1, null, 3]`. -/
def dfHole : DataFrame :=
  { colNames := ["A"], dtypes := [Dtype.numeric],
    rows := [[Cell.num 1], [Cell.null], [Cell.num 3]] }

/-- Equality of `handle_outliers` results is decidable (used to evaluate the
error paths on concrete inputs). -/
instance : DecidableEq (Except String Cleaner) := fun a b =>
  match a, b with
  | Except.ok x, Except.ok y =>
    if h : x = y then isTrue (by rw [h])
    else isFalse (fun hh => h (Except.ok.inj hh))
  | Except.error e, Except.error f =>
    if h : e = f then isTrue (by rw [h])
    else isFalse (fun hh => h (Except.error.inj hh))
  | Except.ok _, Except.error _ => isFalse (fun hh => Except.noConfusion hh)
  | Except.error _, Except.ok _ => isFalse (fun hh => Except.noConfusion hh)

/-! ### General lemmas about the embedding -/

theorem idxOfName_lt_length {c : String} :
    ∀ {l : List String} {i : ℕ}, idxOfName c l = some i → i < l.length := by
  intro l
  induction l with
  | nil => intro i h; simp [idxOfName] at h
  | cons n ns ih =>
    intro i h
    rw [idxOfName] at h
    by_cases hn : n = c
    · rw [if_pos hn] at h
      cases h
      simp
    · rw [if_neg hn] at h
      rcases Option.map_eq_some'.mp h with ⟨j, hj, rfl⟩
      simpa using Nat.succ_lt_succ (ih hj)

theorem idxOfName_get {c : String} :
    ∀ {l : List String} {i : ℕ}, idxOfName c l = some i → l.get? i = some c := by
  intro l
  induction l with
  | nil => intro i h; simp [idxOfName] at h
  | cons n ns ih =>
    intro i h
    rw [idxOfName] at h
    by_cases hn : n = c
    · rw [if_pos hn] at h
      cases h
      simp [hn]
    · rw [if_neg hn] at h
      rcases Option.map_eq_some'.mp h with ⟨j, hj, rfl⟩
      simpa using ih hj

theorem idxOfName_isSome_of_mem {c : String} :
    ∀ {l : List String}, c ∈ l → ∃ i, idxOfName c l = some i := by
  intro l
  induction l with
  | nil => intro h; cases h
  | cons n ns ih =>
    intro h
    by_cases hn : n = c
    · exact ⟨0, by rw [idxOfName, if_pos hn]⟩
    · rcases ih (by rcases List.mem_cons.mp h with h | h; exact absurd h.symm hn; exact h) with ⟨j, hj⟩
      exact ⟨j + 1, by rw [idxOfName, if_neg hn, hj]; rfl⟩

theorem ratMin_eq_min (a b : ℚ) : ratMin a b = min a b := by
  rw [ratMin, min_def]

theorem ratMax_eq_max (a b : ℚ) : ratMax a b = max a b := by
  unfold ratMax
  rcases le_total b a with h | h
  · rw [if_pos h, max_eq_left h]
  · by_cases h2 : b ≤ a
    · rw [if_pos h2, max_eq_left h2]
    · rw [if_neg h2, max_eq_right h]

/-! ### C4 — the worked IQR example -/

/-- C4: on `{A:[1,2,3,4,100]}` with multiplier 1.5, the linearly
interpolated quartiles are `Q1 = 2` and `Q3 = 4`, the bounds are `-1` and
`7`, exactly the value 100 is flagged, and `remove_outliers` on column `A`
leaves exactly the 4 rows `1,2,3,4`. -/
theorem iqr_example_flags_only_100 :
    quantile colExample (1/4) = some 2 ∧ quantile colExample (3/4) = some 4 ∧
    iqrLower colExample (3/2) = some (-1) ∧ iqrUpper colExample (3/2) = some 7 ∧
    colExample.map
        (fun c => !(iqrKeep (iqrLower colExample (3/2)) (iqrUpper colExample (3/2)) c))
      = [false, false, false, false, true] ∧
    (removeOutliersData (some ["A"]) "iqr" (3/2) dfExample).rows
      = [[Cell.num 1], [Cell.num 2], [Cell.num 3], [Cell.num 4]] := by
  decide

/-! ### C2 — z-score on a zero-variance column -/

/-- C2 (refuting the claimed behaviour): on the constant column
`A = [5,5,5]` the source's z-score filter computes `std = 0`, every z-score
is `NaN`, `NaN < 3` is false, and `remove_outliers(method='zscore')` removes
ALL three rows instead of the zero rows the spec requires. -/
theorem zscore_constant_column_removes_all_rows :
    dfConst.rows.length = 3 ∧
    (removeOutliers Option.none "zscore" 3 { data := dfConst, history := [] }).data.rows
      = [] := by
  decide

/-! ### C1 — the aggregate quality score -/

/-- C1: `analyze_data_quality` computes the quality score as
`clamp(100 - 0.5*null_pct - 0.5*dup_pct, 0, 100)` over the pre-clean frame;
the score is always within `[0, 100]`, and a frame with zero null cells and
zero duplicate rows scores exactly 100. -/
theorem quality_score_clamped (df : DataFrame) :
    qualityScore df =
      max 0 (min 100 (100 - nullPct df * (1/2) - dupPct df * (1/2))) ∧
    0 ≤ qualityScore df ∧ qualityScore df ≤ 100 ∧
    (totalNullCount df = 0 → dupRowCount df = 0 → qualityScore df = 100) := by
  refine ⟨?_, ?_, ?_, ?_⟩
  · rw [qualityScore, ratMax_eq_max, ratMin_eq_min]
  · rw [qualityScore, ratMax_eq_max, ratMin_eq_min]
    exact le_max_left _ _
  · rw [qualityScore, ratMax_eq_max, ratMin_eq_min]
    exact max_le (by norm_num) (min_le_left _ _)
  · intro hn hd
    have h1 : nullPct df = 0 := by
      rw [nullPct, hn]
      norm_num
    have h2 : dupPct df = 0 := by
      rw [dupPct, hd]
      split <;> norm_num
    rw [qualityScore, h1, h2]
    norm_num [ratMax, ratMin]

/-- C1 witness: the clean 3-row frame has no nulls and no duplicates and
scores exactly 100. -/
theorem quality_score_clamped_witness : qualityScore dfSmall = 100 :=
  (quality_score_clamped dfSmall).2.2.2 (by decide) (by decide)

/-! ### C7 — handle_outliers on unknown method/action strings (corrected) -/

/-- C7 counterexample: with `method='zscore'` the source raises `NameError`
at `stats.zscore` (line 246 — `stats` is never imported, and Python resolves
the callee before its arguments) before the action string is ever examined,
so an invalid action does NOT fail with the invalid-action error there. -/
theorem handle_outliers_zscore_name_error :
    handleOutliers "A" "zscore" "bar" stSmall
      = Except.error "NameError: name stats is not defined" ∧
    (Except.error "NameError: name stats is not defined" : Except String Cleaner)
      ≠ Except.error "action must be remove, replace, or cap" := by
  decide

/-- C7 amended: `handle_outliers` fails with the invalid-method error
whenever the method string is neither `iqr` nor `zscore`; with
`method='iqr'`, an existing column, and an action string outside
`cap`/`replace`/`remove` it fails with the invalid-action error; and with
`method='zscore'` it always fails with `NameError` (the `stats` module is
never imported) before the action is examined.  Every failure happens before
any mutation, so the held dataset and the cleaning log are unchanged (the
error result carries no new state). -/
theorem handle_outliers_invalid_args (st : Cleaner) (column method action : String)
    (hcol : column ∈ st.data.colNames) :
    (method ≠ "iqr" → method ≠ "zscore" →
      handleOutliers column method action st
        = Except.error "method must be iqr or zscore") ∧
    (method = "iqr" →
      action ≠ "remove" → action ≠ "replace" → action ≠ "cap" →
      handleOutliers column method action st
        = Except.error "action must be remove, replace, or cap") ∧
    (method = "zscore" →
      handleOutliers column method action st
        = Except.error "NameError: name stats is not defined") := by
  refine ⟨?_, ?_, ?_⟩
  · intro h1 h2
    rw [handleOutliers, if_neg h1, if_neg h2]
  · intro hm h1 h2 h3
    obtain ⟨i, hi⟩ := idxOfName_isSome_of_mem hcol
    have hi' : colIdx st.data column = some i := hi
    subst hm
    rw [handleOutliers, if_pos rfl, hi']
    simp [h1, h2, h3]
  · intro hm
    subst hm
    rw [handleOutliers, if_neg (by decide), if_pos rfl]

/-- C7 amended witness: on a concrete frame, the method string `foo`, the
action string `bar` under `iqr`, and the `zscore` method produce the three
respective errors. -/
theorem handle_outliers_invalid_args_witness :
    handleOutliers "A" "foo" "cap" stSmall
        = Except.error "method must be iqr or zscore" ∧
    handleOutliers "A" "iqr" "bar" stSmall
        = Except.error "action must be remove, replace, or cap" ∧
    handleOutliers "A" "zscore" "cap" stSmall
        = Except.error "NameError: name stats is not defined" :=
  ⟨(handle_outliers_invalid_args stSmall "A" "foo" "cap" (by decide)).1
      (by decide) (by decide),
   (handle_outliers_invalid_args stSmall "A" "iqr" "bar" (by decide)).2.1
      rfl (by decide) (by decide) (by decide),
   (handle_outliers_invalid_args stSmall "A" "zscore" "cap" (by decide)).2.2 rfl⟩

/-! ### C5 — one log entry per operation (corrected) -/

/-- C5 counterexample: `handle_outliers(method='iqr', action='cap')` on
`A = [1,2,3]` returns normally (bounds are `0` and `4`, nothing is clipped)
and appends NO log entry — the history stays empty, not one entry longer. -/
theorem handle_outliers_appends_no_entry :
    handleOutliers "A" "iqr" "cap" stSmall = Except.ok stSmall ∧
    stSmall.history.length ≠ stSmall.history.length + 1 := by
  decide

theorem fixColumnTypes_log_count :
    ∀ (m : List (String × Dtype)) (st : Cleaner),
      (fixColumnTypes m st).history.length
        = st.history.length + castSuccessCount m st.data := by
  intro m
  induction m with
  | nil => intro st; simp [fixColumnTypes, castSuccessCount]
  | cons p rest ih =>
    intro st
    have hstep : fixColumnTypes (p :: rest) st = fixColumnTypes rest (fixStep st p) := rfl
    rw [hstep, ih]
    rw [castSuccessCount]
    unfold fixStep
    rcases h1 : colIdx st.data p.1 with _ | i
    · simp
    · rcases h2 : tryCastCol p.2 (getColIdx st.data i) with _ | cells
      · simp [h2]
      · simp [h2, setColCells]
        omega

/-- C5 amended: every exposed mutating operation except `handle_outliers`
and `fix_column_types` appends exactly one entry to the cleaning log on
every normal return; `handle_outliers` appends none, and `fix_column_types`
appends one entry per successfully coerced column (zero or several are
possible). -/
theorem cleaning_log_discipline :
    (∀ (col meth act : String) (st st' : Cleaner),
        handleOutliers col meth act st = Except.ok st' → st'.history = st.history) ∧
    (∀ (m : List (String × Dtype)) (st : Cleaner),
        (fixColumnTypes m st).history.length
          = st.history.length + castSuccessCount m st.data) ∧
    (∀ (cols : Option (List String)) (thr : Option ℕ) (st : Cleaner),
        ∃ e, (removeNulls cols thr st).history = st.history ++ [e]) ∧
    (∀ (v : Cell) (cols : Option (List String)) (meth : Option String) (st : Cleaner),
        ∃ e, (fillNulls v cols meth st).history = st.history ++ [e]) ∧
    (∀ (sub : Option (List String)) (k : Keep) (st : Cleaner),
        ∃ e, (removeDuplicates sub k st).history = st.history ++ [e]) ∧
    (∀ (cols : Option (List String)) (meth : String) (thr : ℚ) (st : Cleaner),
        ∃ e, (removeOutliers cols meth thr st).history = st.history ++ [e]) ∧
    (∀ (cols : List String) (st : Cleaner),
        ∃ e, (dropColumns cols st).history = st.history ++ [e]) ∧
    (∀ (m : List (String × String)) (st : Cleaner),
        ∃ e, (renameColumns m st).history = st.history ++ [e]) ∧
    (∀ (cols : Option (List String)) (lc sp : Bool) (st : Cleaner),
        ∃ e, (cleanTextColumns cols lc sp st).history = st.history ++ [e]) ∧
    (∀ st : Cleaner, ∃ e, (standardizeColumnNames st).history = st.history ++ [e]) := by
  refine ⟨?_, fixColumnTypes_log_count, ?_, ?_, ?_, ?_, ?_, ?_, ?_, ?_⟩
  · intro col meth act st st' h
    rw [handleOutliers] at h
    split at h
    · split at h
      · exact absurd h (by simp)
      · split at h
        · cases Except.ok.inj h; rfl
        · split at h
          · cases Except.ok.inj h; rfl
          · split at h
            · cases Except.ok.inj h; rfl
            · exact absurd h (by simp)
    · split at h
      · exact absurd h (by simp)
      · exact absurd h (by simp)
  · exact fun cols thr st => ⟨_, rfl⟩
  · exact fun v cols meth st => ⟨_, rfl⟩
  · exact fun sub k st => ⟨_, rfl⟩
  · exact fun cols meth thr st => ⟨_, rfl⟩
  · exact fun cols st => ⟨_, rfl⟩
  · exact fun m st => ⟨_, rfl⟩
  · exact fun cols lc sp st => ⟨_, rfl⟩
  · exact fun st => ⟨_, rfl⟩

/-- C5 amended witness: the `handle_outliers` conjunct applied to a concrete
normal return. -/
theorem cleaning_log_discipline_witness :
    handleOutliers "A" "iqr" "cap" stSmall = Except.ok stSmall ∧
    stSmall.history = stSmall.history :=
  ⟨by decide,
   cleaning_log_discipline.1 "A" "iqr" "cap" stSmall stSmall (by decide)⟩

/-! ### C9 — remove_duplicates is idempotent -/

theorem dedupFirstAux_spec {α : Type} [DecidableEq α] (key : Row → α) :
    ∀ (l : List Row) (seen : List α),
      (∀ r ∈ dedupFirstAux key seen l, key r ∉ seen) ∧
      ((dedupFirstAux key seen l).map key).Nodup := by
  intro l
  induction l with
  | nil => intro seen; simp [dedupFirstAux]
  | cons r rs ih =>
    intro seen
    by_cases h : key r ∈ seen
    · rw [dedupFirstAux, if_pos h]
      exact ih seen
    · rw [dedupFirstAux, if_neg h]
      obtain ⟨ih1, ih2⟩ := ih (key r :: seen)
      refine ⟨?_, ?_⟩
      · intro x hx
        rcases List.mem_cons.mp hx with rfl | hx
        · exact h
        · exact fun hseen => ih1 x hx (List.mem_cons_of_mem _ hseen)
      · rw [List.map_cons]
        refine List.nodup_cons.mpr ⟨?_, ih2⟩
        intro hmem
        rcases List.mem_map.mp hmem with ⟨x, hx, hkey⟩
        exact ih1 x hx (by rw [hkey]; exact List.mem_cons_self _ _)

theorem dedupFirstAux_eq_self {α : Type} [DecidableEq α] (key : Row → α) :
    ∀ (l : List Row) (seen : List α),
      (∀ r ∈ l, key r ∉ seen) → (l.map key).Nodup → dedupFirstAux key seen l = l := by
  intro l
  induction l with
  | nil => intro seen _ _; rfl
  | cons r rs ih =>
    intro seen hseen hnd
    rw [dedupFirstAux, if_neg (hseen r (List.mem_cons_self _ _))]
    have hnd0 : (key r :: rs.map key).Nodup := by
      rw [List.map_cons] at hnd
      exact hnd
    have hnd' := List.nodup_cons.mp hnd0
    congr 1
    apply ih
    · intro x hx hmem
      rcases List.mem_cons.mp hmem with hxr | hxs
      · exact hnd'.1 (hxr ▸ List.mem_map.mpr ⟨x, hx, rfl⟩)
      · exact hseen x (List.mem_cons_of_mem _ hx) hxs
    · exact hnd'.2

theorem dedupFirst_idem {α : Type} [DecidableEq α] (key : Row → α) (l : List Row) :
    dedupFirst key (dedupFirst key l) = dedupFirst key l := by
  obtain ⟨h1, h2⟩ := dedupFirstAux_spec key l []
  exact dedupFirstAux_eq_self key _ [] (fun r _ hmem => by cases hmem) h2

/-- C9: `remove_duplicates()` with the default subset and keep rule is
idempotent — the second call leaves the dataset unchanged and logs the
removal of zero rows. -/
theorem remove_duplicates_idempotent (st : Cleaner) :
    (removeDuplicates Option.none Keep.first (removeDuplicates Option.none Keep.first st)).data
      = (removeDuplicates Option.none Keep.first st).data ∧
    (removeDuplicates Option.none Keep.first (removeDuplicates Option.none Keep.first st)).history
      = (removeDuplicates Option.none Keep.first st).history
        ++ ["Removed 0 duplicate rows"] := by
  have hkey : ∀ (df : DataFrame), dupKey df Option.none = fun (r : Row) => r :=
    fun _ => rfl
  have hrows :
      dedupRows (dupKey (removeDuplicates Option.none Keep.first st).data Option.none) Keep.first
          (removeDuplicates Option.none Keep.first st).data.rows
        = (removeDuplicates Option.none Keep.first st).data.rows := by
    show dedupFirst _ _ = _
    rw [hkey]
    have : (removeDuplicates Option.none Keep.first st).data.rows
        = dedupFirst (fun (r : Row) => r) st.data.rows := by
      show dedupRows (dupKey st.data Option.none) Keep.first st.data.rows = _
      rw [hkey]
      rfl
    rw [this, dedupFirst_idem]
  constructor
  · show ({ (removeDuplicates Option.none Keep.first st).data with
      rows := dedupRows _ Keep.first _ } : DataFrame) = _
    rw [hrows]
  · show (removeDuplicates Option.none Keep.first st).history
      ++ ["Removed " ++ toString
            ((removeDuplicates Option.none Keep.first st).data.rows.length
              - (dedupRows _ Keep.first _).length) ++ " duplicate rows"] = _
    rw [hrows, Nat.sub_self]
    rfl

/-! ### C6 — standardize_column_names is idempotent -/

theorem keepIdentChar_facts {c : Char} (h : keepIdentChar c = true) :
    97 ≤ c.toNat ∧ c.toNat ≤ 122 ∨ 48 ≤ c.toNat ∧ c.toNat ≤ 57 ∨ c.toNat = 95 := by
  simpa [keepIdentChar, or_assoc] using h

theorem keepIdentChar_toLower {c : Char} (h : keepIdentChar c = true) :
    Char.toLower c = c := by
  rcases keepIdentChar_facts h with h' | h' | h' <;>
    · rw [Char.toLower, if_neg]
      intro hc
      omega

theorem keepIdentChar_not_whitespace {c : Char} (h : keepIdentChar c = true) :
    c.isWhitespace = false := by
  have hf := keepIdentChar_facts h
  have hsp : (' ').toNat = 32 := rfl
  have htb : ('\t').toNat = 9 := rfl
  have hcr : ('\x0d').toNat = 13 := rfl
  have hnl : ('\n').toNat = 10 := rfl
  rw [Char.isWhitespace]
  have hne : ∀ d : Char, c.toNat ≠ d.toNat → decide (c = d) = false := by
    intro d hd
    simp only [decide_eq_false_iff_not]
    intro hcd
    exact hd (by rw [hcd])
  rw [hne ' ' (by omega), hne '\t' (by omega), hne '\x0d' (by omega),
    hne '\n' (by omega)]
  rfl

theorem keepIdentChar_ne_space {c : Char} (h : keepIdentChar c = true) : c ≠ ' ' := by
  have hf := keepIdentChar_facts h
  intro hc
  rw [hc] at hf
  have hsp : (' ').toNat = 32 := rfl
  omega

theorem keepIdentChar_ne_hyphen {c : Char} (h : keepIdentChar c = true) : c ≠ '-' := by
  have hf := keepIdentChar_facts h
  intro hc
  rw [hc] at hf
  have hhy : ('-').toNat = 45 := rfl
  omega

theorem dropWhile_eq_self_of_none {p : Char → Bool} {l : List Char}
    (h : ∀ c ∈ l, p c = false) : l.dropWhile p = l := by
  cases l with
  | nil => rfl
  | cons a as =>
    rw [List.dropWhile_cons, h a (List.mem_cons_self a as)]
    simp

theorem stripEnds_eq_self {l : List Char}
    (h : ∀ c ∈ l, c.isWhitespace = false) : stripEnds l = l := by
  rw [stripEnds, dropWhile_eq_self_of_none h, dropWhile_eq_self_of_none, List.reverse_reverse]
  intro c hc
  exact h c (List.mem_reverse.mp hc)

theorem replaceChar_eq_self {a b : Char} {l : List Char}
    (h : ∀ c ∈ l, c ≠ a) : replaceChar a b l = l := by
  rw [replaceChar]
  have := List.map_congr_left (f := fun c => if c = a then b else c) (g := id)
    (l := l) (fun c hc => by simp [h c hc])
  rw [this, List.map_id]

/-- Every character of a standardized name is in `[a-z0-9_]`. -/
theorem stdName_chars (s : String) : ∀ ch ∈ (stdName s).data, keepIdentChar ch = true := by
  intro ch hch
  exact (List.mem_filter.mp hch).2

theorem stdName_idem (s : String) : stdName (stdName s) = stdName s := by
  have hch := stdName_chars s
  rw [stdName]
  have h1 : (stdName s).data.map Char.toLower = (stdName s).data := by
    have := List.map_congr_left (f := Char.toLower) (g := id)
      (l := (stdName s).data) (fun c hc => keepIdentChar_toLower (hch c hc))
    rw [this, List.map_id]
  rw [h1, stripEnds_eq_self (fun c hc => keepIdentChar_not_whitespace (hch c hc)),
    replaceChar_eq_self (fun c hc => keepIdentChar_ne_space (hch c hc)),
    replaceChar_eq_self (fun c hc => keepIdentChar_ne_hyphen (hch c hc)),
    List.filter_eq_self.mpr hch]

/-- The INTENDED transform of `standardize_column_names` is idempotent on
every dataset's column names (this is what the spec describes; the shipped
code never reaches it — see `standardize_column_names_raises_name_error`). -/
theorem standardize_column_names_idempotent (st : Cleaner) :
    (standardizeColumnNames (standardizeColumnNames st)).data.colNames
      = (standardizeColumnNames st).data.colNames := by
  show (st.data.colNames.map stdName).map stdName = st.data.colNames.map stdName
  rw [List.map_map]
  exact List.map_congr_left (fun n _ => stdName_idem n)

/-- C6 (the code evaluated at the failing input): `standardize_column_names`
raises `NameError` on any frame with at least one column, because
`data_cleaner.py` never imports `re` and line 189 runs `re.sub` in the
per-column loop; only the zero-column frame returns normally, renaming
nothing and appending the one log entry.  So the source never produces a
standardized name at all, and the claimed idempotent standardization does
not happen — although the intended transform itself is idempotent
(`standardize_column_names_idempotent` above). -/
theorem standardize_column_names_raises_name_error :
    standardizeColumnNamesRun stSmall
      = Except.error "NameError: name re is not defined" ∧
    standardizeColumnNamesRun
        { data := { colNames := [], dtypes := [], rows := [] }, history := [] }
      = Except.ok
          { data := { colNames := [], dtypes := [], rows := [] },
            history := ["Standardized column names"] } := by
  decide

/-! ### C8 — IQR outlier count is antitone in the multiplier -/

theorem sortedVals_sorted (cells : List Cell) :
    (sortedVals cells).Sorted (· ≤ ·) :=
  List.sorted_insertionSort _ _

theorem sorted_getD_mono {s : List ℚ} (hs : s.Sorted (· ≤ ·)) {i j : ℕ}
    (hij : i ≤ j) (hj : j < s.length) : s.getD i 0 ≤ s.getD j 0 := by
  have hi : i < s.length := Nat.lt_of_le_of_lt hij hj
  rw [List.getD_eq_getElem _ _ hi, List.getD_eq_getElem _ _ hj]
  have := hs.rel_get_of_le (a := ⟨i, hi⟩) (b := ⟨j, hj⟩) hij
  simpa using this

theorem getD_succ_ge {s : List ℚ} (hs : s.Sorted (· ≤ ·)) (i : ℕ) :
    s.getD i 0 ≤ s.getD (i + 1) (s.getD i 0) := by
  by_cases h1 : i + 1 < s.length
  · rw [List.getD_eq_getElem _ _ h1, ← List.getD_eq_getElem s 0 h1]
    exact sorted_getD_mono hs (Nat.le_succ i) h1
  · rw [List.getD_eq_default _ _ (Nat.le_of_not_lt h1)]

theorem floor_toNat_cast_le {p : ℚ} (h0 : 0 ≤ p) : (((⌊p⌋).toNat : ℚ)) ≤ p := by
  have hnn : (0:ℤ) ≤ ⌊p⌋ := Int.floor_nonneg.mpr h0
  have h1 := Int.toNat_of_nonneg hnn
  calc (((⌊p⌋).toNat : ℚ)) = ((⌊p⌋ : ℤ) : ℚ) := by exact_mod_cast h1
    _ ≤ p := Int.floor_le p

theorem lt_floor_toNat_add_one {p : ℚ} (h0 : 0 ≤ p) : p < ((⌊p⌋).toNat : ℚ) + 1 := by
  have hnn : (0:ℤ) ≤ ⌊p⌋ := Int.floor_nonneg.mpr h0
  have h1 := Int.toNat_of_nonneg hnn
  have hcast : (((⌊p⌋).toNat : ℚ)) = ((⌊p⌋ : ℤ) : ℚ) := by exact_mod_cast h1
  rw [hcast]
  exact_mod_cast Int.lt_floor_add_one p

theorem floor_toNat_lt_length {s : List ℚ} {p : ℚ} (h0 : 0 ≤ p)
    (hub : p ≤ (s.length : ℚ) - 1) : (⌊p⌋).toNat < s.length := by
  have h1 : (((⌊p⌋).toNat : ℚ)) ≤ (s.length : ℚ) - 1 :=
    le_trans (floor_toNat_cast_le h0) hub
  have h2 : (((⌊p⌋).toNat : ℚ)) + 1 ≤ (s.length : ℚ) := by linarith
  exact_mod_cast h2

theorem interpAt_lower {s : List ℚ} (hs : s.Sorted (· ≤ ·)) {p : ℚ} (h0 : 0 ≤ p) :
    s.getD (⌊p⌋).toNat 0 ≤ interpAt s p := by
  rw [interpAt]
  have hfrac : 0 ≤ p - ((⌊p⌋).toNat : ℚ) := sub_nonneg.mpr (floor_toNat_cast_le h0)
  have hxy := getD_succ_ge hs (⌊p⌋).toNat
  nlinarith [mul_nonneg hfrac (sub_nonneg.mpr hxy)]

theorem interpAt_upper {s : List ℚ} (hs : s.Sorted (· ≤ ·)) {p : ℚ} (h0 : 0 ≤ p) :
    interpAt s p ≤ s.getD ((⌊p⌋).toNat + 1) (s.getD (⌊p⌋).toNat 0) := by
  rw [interpAt]
  have hfrac : p - ((⌊p⌋).toNat : ℚ) ≤ 1 := by
    have := lt_floor_toNat_add_one h0
    linarith
  have hxy := getD_succ_ge hs (⌊p⌋).toNat
  nlinarith [mul_nonneg (sub_nonneg.mpr hfrac) (sub_nonneg.mpr hxy)]

theorem interpAt_mono {s : List ℚ} (hs : s.Sorted (· ≤ ·)) {p1 p2 : ℚ}
    (h0 : 0 ≤ p1) (h12 : p1 ≤ p2) (hub : p2 ≤ (s.length : ℚ) - 1) :
    interpAt s p1 ≤ interpAt s p2 := by
  have h02 : 0 ≤ p2 := le_trans h0 h12
  have hi12 : (⌊p1⌋).toNat ≤ (⌊p2⌋).toNat :=
    Int.toNat_le_toNat (Int.floor_le_floor h12)
  rcases eq_or_lt_of_le hi12 with heq | hlt
  · rw [interpAt, interpAt, ← heq]
    have hxy := getD_succ_ge hs (⌊p1⌋).toNat
    nlinarith [mul_nonneg (sub_nonneg.mpr h12) (sub_nonneg.mpr hxy)]
  · have hlen2 : (⌊p2⌋).toNat < s.length := floor_toNat_lt_length h02 hub
    have hlen1 : (⌊p1⌋).toNat + 1 < s.length := Nat.lt_of_le_of_lt hlt hlen2
    have step1 : interpAt s p1 ≤ s.getD ((⌊p1⌋).toNat + 1) (s.getD (⌊p1⌋).toNat 0) :=
      interpAt_upper hs h0
    have step2 : s.getD ((⌊p1⌋).toNat + 1) (s.getD (⌊p1⌋).toNat 0)
        ≤ s.getD (⌊p2⌋).toNat 0 := by
      rw [List.getD_eq_getElem _ _ hlen1, ← List.getD_eq_getElem s 0 hlen1]
      exact sorted_getD_mono hs hlt hlen2
    have step3 : s.getD (⌊p2⌋).toNat 0 ≤ interpAt s p2 := interpAt_lower hs h02
    exact le_trans (le_trans step1 step2) step3

theorem quantile_le_quantile (cells : List Cell) {a b : ℚ}
    (h0 : 0 ≤ a) (hab : a ≤ b) (hb1 : b ≤ 1) {x y : ℚ}
    (hx : quantile cells a = some x) (hy : quantile cells b = some y) : x ≤ y := by
  by_cases hemp : (sortedVals cells).isEmpty
  · rw [quantile, if_pos hemp] at hx
    cases hx
  · rw [quantile, if_neg hemp] at hx hy
    cases hx
    cases hy
    have hlen : (1:ℚ) ≤ ((sortedVals cells).length : ℚ) := by
      have : (sortedVals cells).length ≠ 0 := by
        intro h
        exact hemp (List.isEmpty_iff_length_eq_zero.mpr h)
      exact_mod_cast Nat.one_le_iff_ne_zero.mpr this
    have hlen0 : (0:ℚ) ≤ ((sortedVals cells).length : ℚ) - 1 := by linarith
    apply interpAt_mono (sortedVals_sorted cells)
    · exact mul_nonneg h0 hlen0
    · exact mul_le_mul_of_nonneg_right hab hlen0
    · calc b * (((sortedVals cells).length : ℚ) - 1)
          ≤ 1 * (((sortedVals cells).length : ℚ) - 1) :=
            mul_le_mul_of_nonneg_right hb1 hlen0
        _ = ((sortedVals cells).length : ℚ) - 1 := one_mul _

theorem iqrKeep_mono (cells : List Cell) {m1 m2 : ℚ}
    (h0 : 0 ≤ m1) (h12 : m1 ≤ m2) {c : Cell}
    (h : iqrKeep (iqrLower cells m1) (iqrUpper cells m1) c = true) :
    iqrKeep (iqrLower cells m2) (iqrUpper cells m2) c = true := by
  rcases c with _ | q | s
  · simp [iqrKeep] at h
  · rcases hq1 : quantile cells (1/4) with _ | q1
    · have hnone : iqrLower cells m1 = none := by rw [iqrLower, hq1]; rfl
      rw [hnone] at h
      simp [iqrKeep] at h
    · rcases hq3 : quantile cells (3/4) with _ | q3
      · have hnone : iqrLower cells m1 = none := by rw [iqrLower, hq1, hq3]; rfl
        rw [hnone] at h
        simp [iqrKeep] at h
      · have hq13 : q1 ≤ q3 :=
          quantile_le_quantile cells (by norm_num) (by norm_num) (by norm_num) hq1 hq3
        have hl1 : iqrLower cells m1 = some (q1 - m1 * (q3 - q1)) := by
          rw [iqrLower, hq1, hq3]
          rfl
        have hl2 : iqrLower cells m2 = some (q1 - m2 * (q3 - q1)) := by
          rw [iqrLower, hq1, hq3]
          rfl
        have hu1 : iqrUpper cells m1 = some (q3 + m1 * (q3 - q1)) := by
          rw [iqrUpper, hq1, hq3]
          rfl
        have hu2 : iqrUpper cells m2 = some (q3 + m2 * (q3 - q1)) := by
          rw [iqrUpper, hq1, hq3]
          rfl
        rw [hl1, hu1] at h
        rw [hl2, hu2]
        simp only [iqrKeep, Bool.and_eq_true, decide_eq_true_eq] at h ⊢
        obtain ⟨ha, hb⟩ := h
        constructor <;> nlinarith

  · simp [iqrKeep] at h

/-- C8: for non-negative multipliers `m1 ≤ m2`, the IQR filter of
`remove_outliers` flags at most as many values at `m2` as at `m1`
(widening the bounds never increases the outlier count). -/
theorem iqr_flagged_count_antitone (cells : List Cell) {m1 m2 : ℚ}
    (h0 : 0 ≤ m1) (h12 : m1 ≤ m2) :
    iqrFlaggedCount cells m2 ≤ iqrFlaggedCount cells m1 := by
  rw [iqrFlaggedCount, iqrFlaggedCount]
  apply List.countP_mono_left
  intro c _ hc
  simp only [Bool.not_eq_true'] at hc ⊢
  by_contra hk
  rw [Bool.not_eq_false] at hk
  rw [iqrKeep_mono cells h0 h12 hk] at hc
  cases hc

/-- C8 witness: on the example column, multipliers `1 ≤ 2` flag
antitonically many values. -/
theorem iqr_flagged_count_antitone_witness :
    (0:ℚ) ≤ 1 ∧ (1:ℚ) ≤ 2 ∧
      iqrFlaggedCount colExample 2 ≤ iqrFlaggedCount colExample 1 :=
  ⟨by norm_num, by norm_num,
    iqr_flagged_count_antitone colExample (by norm_num) (by norm_num)⟩

/-! ### C10 — IQR removal also drops rows that are null in a checked column -/

theorem removeOutliersStep_shape (method : String) (t : ℚ) (df : DataFrame)
    (col : String) :
    (removeOutliersStep method t df col).colNames = df.colNames ∧
    (removeOutliersStep method t df col).dtypes = df.dtypes := by
  unfold removeOutliersStep
  split
  · exact ⟨rfl, rfl⟩
  · split
    · split
      · exact ⟨rfl, rfl⟩
      · split
        · exact ⟨rfl, rfl⟩
        · exact ⟨rfl, rfl⟩
    · exact ⟨rfl, rfl⟩

theorem removeOutliersStep_rows_subset (method : String) (t : ℚ) (df : DataFrame)
    (col : String) :
    ∀ r ∈ (removeOutliersStep method t df col).rows, r ∈ df.rows := by
  intro r hr
  unfold removeOutliersStep at hr
  revert hr
  split
  · exact fun hr => hr
  · split
    · split
      · intro hr
        simp only [filterByCol] at hr
        exact (List.mem_filter.mp hr).1
      · split
        · intro hr
          simp only [filterByCol] at hr
          exact (List.mem_filter.mp hr).1
        · exact fun hr => hr
    · exact fun hr => hr

theorem foldl_removeOutliersStep_shape (method : String) (t : ℚ) :
    ∀ (cols : List String) (df : DataFrame),
      (cols.foldl (removeOutliersStep method t) df).colNames = df.colNames ∧
      (cols.foldl (removeOutliersStep method t) df).dtypes = df.dtypes := by
  intro cols
  induction cols with
  | nil => exact fun df => ⟨rfl, rfl⟩
  | cons c cs ih =>
    intro df
    rw [List.foldl_cons]
    obtain ⟨h1, h2⟩ := ih (removeOutliersStep method t df c)
    obtain ⟨g1, g2⟩ := removeOutliersStep_shape method t df c
    exact ⟨h1.trans g1, h2.trans g2⟩

theorem foldl_removeOutliersStep_rows_subset (method : String) (t : ℚ) :
    ∀ (cols : List String) (df : DataFrame) (r : Row),
      r ∈ (cols.foldl (removeOutliersStep method t) df).rows → r ∈ df.rows := by
  intro cols
  induction cols with
  | nil => exact fun df r hr => hr
  | cons c cs ih =>
    intro df r hr
    rw [List.foldl_cons] at hr
    exact removeOutliersStep_rows_subset method t df c r
      (ih (removeOutliersStep method t df c) r hr)

theorem removeOutliersStep_iqr_kills_nulls {df : DataFrame} {c : String} {i : ℕ}
    (t : ℚ) (hi : colIdx df c = some i) (hdt : dtypeAt df i = some Dtype.numeric)
    {r : Row} (hr : r ∈ (removeOutliersStep "iqr" t df c).rows) :
    r.getD i Cell.null ≠ Cell.null := by
  unfold removeOutliersStep at hr
  split at hr
  case _ heq =>
    rw [hi] at heq
    cases heq
  case _ j heq =>
    rw [hi] at heq
    injection heq with heq
    subst heq
    split at hr
    · split at hr
      · simp only [filterByCol] at hr
        have hkeep := (List.mem_filter.mp hr).2
        intro hnull
        rw [hnull] at hkeep
        simp [iqrKeep] at hkeep
      · exact absurd rfl (by assumption)
    · exact absurd hdt (by assumption)

/-- C10: `remove_outliers(method='iqr')` drops every row whose cell in a
checked numeric column is null — the source keeps a row only when
`lower <= x` and `x <= upper` both hold, and a `NaN` satisfies neither, so a
null never survives the pass over its column. -/
theorem remove_outliers_iqr_drops_null_rows (df : DataFrame)
    (columns : Option (List String)) (t : ℚ) (c : String) (i : ℕ) (r : Row)
    (hc : c ∈ resolveOutlierCols df columns)
    (hi : colIdx df c = some i)
    (hdt : dtypeAt df i = some Dtype.numeric)
    (hnull : r.getD i Cell.null = Cell.null) :
    r ∉ (removeOutliersData columns "iqr" t df).rows := by
  intro hmem
  rw [removeOutliersData] at hmem
  obtain ⟨l1, l2, hsplit⟩ := List.append_of_mem hc
  rw [hsplit, List.foldl_append, List.foldl_cons] at hmem
  have hsub := foldl_removeOutliersStep_rows_subset "iqr" t l2
    (removeOutliersStep "iqr" t (l1.foldl (removeOutliersStep "iqr" t) df) c) r hmem
  obtain ⟨hn, hd⟩ := foldl_removeOutliersStep_shape "iqr" t l1 df
  have hi' : colIdx (l1.foldl (removeOutliersStep "iqr" t) df) c = some i := by
    show idxOfName c (l1.foldl (removeOutliersStep "iqr" t) df).colNames = some i
    rw [hn]
    exact hi
  have hdt' : dtypeAt (l1.foldl (removeOutliersStep "iqr" t) df) i
      = some Dtype.numeric := by
    show (l1.foldl (removeOutliersStep "iqr" t) df).dtypes.get? i = _
    rw [hd]
    exact hdt
  exact removeOutliersStep_iqr_kills_nulls t hi' hdt' hsub hnull

/-- C10 witness: on `A = [1, null, 3]` the null row does not survive
`remove_outliers(method='iqr')` over all numeric columns. -/
theorem remove_outliers_iqr_drops_null_rows_witness :
    [Cell.null] ∉ (removeOutliersData Option.none "iqr" (3/2) dfHole).rows :=
  remove_outliers_iqr_drops_null_rows dfHole Option.none (3/2) "A" 0 [Cell.null]
    (by decide) (by decide) (by decide) (by decide)

/-! ### C3 — fill_nulls(method='mean') fills with the prior mean -/

theorem mem_numVals {q : ℚ} {cells : List Cell} :
    q ∈ numVals cells ↔ Cell.num q ∈ cells := by
  rw [numVals]
  constructor
  · intro h
    rcases List.mem_filterMap.mp h with ⟨c, hc, htn⟩
    rcases c with _ | p | s
    · cases htn
    · simp only [toNum] at htn
      injection htn with htn
      rw [← htn]
      exact hc
    · cases htn
  · intro h
    exact List.mem_filterMap.mpr ⟨Cell.num q, h, rfl⟩

theorem meanVal_isSome {cells : List Cell} (h : numVals cells ≠ []) :
    ∃ μ, meanVal cells = some μ := by
  rw [meanVal, if_neg (by simpa [List.isEmpty_iff] using h)]
  exact ⟨_, rfl⟩

theorem mapColCells_colNames (df : DataFrame) (j : ℕ) (f : Cell → Cell) :
    (mapColCells df j f).colNames = df.colNames := rfl

theorem mapColCells_len {df : DataFrame} {j : ℕ} (f : Cell → Cell) {i : ℕ}
    (h : ∀ r ∈ df.rows, i < r.length) :
    ∀ r ∈ (mapColCells df j f).rows, i < r.length := by
  intro r hr
  rcases List.mem_map.mp hr with ⟨r0, hr0, rfl⟩
  rw [List.length_set]
  exact h r0 hr0

theorem getColIdx_mapColCells_self {df : DataFrame} {i : ℕ} {f : Cell → Cell}
    (hlen : ∀ r ∈ df.rows, i < r.length) :
    getColIdx (mapColCells df i f) i = (getColIdx df i).map f := by
  unfold getColIdx mapColCells
  rw [List.map_map, List.map_map]
  apply List.map_congr_left
  intro r hr
  simp only [Function.comp_apply]
  rw [List.getD_eq_getElem?_getD, List.getElem?_set_self (hlen r hr)]
  rfl

theorem getColIdx_mapColCells_ne {df : DataFrame} {i j : ℕ} {f : Cell → Cell}
    (hij : j ≠ i) : getColIdx (mapColCells df j f) i = getColIdx df i := by
  unfold getColIdx mapColCells
  rw [List.map_map]
  apply List.map_congr_left
  intro r hr
  simp only [Function.comp_apply]
  rw [List.getD_eq_getElem?_getD, List.getElem?_set_ne hij, ← List.getD_eq_getElem?_getD]

theorem fillCell_ne_null {μ : ℚ} (x : Cell) : fillCell (Cell.num μ) x ≠ Cell.null := by
  cases x <;> simp [fillCell]

theorem fill_no_null_map {μ : ℚ} {l : List Cell} (h : ∀ x ∈ l, x ≠ Cell.null) :
    l.map (fillCell (Cell.num μ)) = l := by
  have heq := List.map_congr_left (f := fillCell (Cell.num μ)) (g := id) (l := l)
    (fun x hx => by
      cases x with
      | null => exact absurd rfl (h _ hx)
      | num q => rfl
      | str s => rfl)
  rw [heq, List.map_id]

theorem fillMethodStep_noCol (value : Cell) {df : DataFrame} {col : String}
    (hj : colIdx df col = Option.none) :
    fillMethodStep "mean" value df col = df := by
  unfold fillMethodStep
  rw [hj]

theorem fillMethodStep_mean_some (value : Cell) {df : DataFrame} {col : String}
    {j : ℕ} {ν : ℚ} (hj : colIdx df col = some j)
    (hν : meanVal (getColIdx df j) = some ν) :
    fillMethodStep "mean" value df col
      = mapColCells df j (fillCell (Cell.num ν)) := by
  unfold fillMethodStep
  rw [hj]
  dsimp only
  rw [hν, if_pos rfl]

theorem fillMethodStep_mean_none (value : Cell) {df : DataFrame} {col : String}
    {j : ℕ} (hj : colIdx df col = some j)
    (hν : meanVal (getColIdx df j) = Option.none) :
    fillMethodStep "mean" value df col = df := by
  unfold fillMethodStep
  rw [hj]
  dsimp only
  rw [hν, if_pos rfl]

theorem fillMean_step_inv (value : Cell) (c : String) (i : ℕ) (μ : ℚ)
    (names0 : List String) (col0 : List Cell)
    (hci : idxOfName c names0 = some i)
    (hμ : meanVal col0 = some μ)
    (hvals : numVals col0 ≠ []) (col' : String) (df : DataFrame)
    (hnames : df.colNames = names0)
    (hlen : ∀ r ∈ df.rows, i < r.length)
    (hstate : getColIdx df i = col0 ∨
      getColIdx df i = col0.map (fillCell (Cell.num μ))) :
    (fillMethodStep "mean" value df col').colNames = names0 ∧
    (∀ r ∈ (fillMethodStep "mean" value df col').rows, i < r.length) ∧
    (getColIdx (fillMethodStep "mean" value df col') i = col0 ∨
      getColIdx (fillMethodStep "mean" value df col') i
        = col0.map (fillCell (Cell.num μ))) ∧
    (col' = c → getColIdx (fillMethodStep "mean" value df col') i
        = col0.map (fillCell (Cell.num μ))) ∧
    (getColIdx df i = col0.map (fillCell (Cell.num μ)) →
      getColIdx (fillMethodStep "mean" value df col') i
        = col0.map (fillCell (Cell.num μ))) := by
  have hc_df : colIdx df c = some i := by
    show idxOfName c df.colNames = some i
    rw [hnames]
    exact hci
  rcases hj : colIdx df col' with _ | j
  · rw [fillMethodStep_noCol value hj]
    refine ⟨hnames, hlen, hstate, ?_, fun h => h⟩
    intro hcc
    rw [hcc, hc_df] at hj
    cases hj
  · by_cases hji : j = i
    · subst hji
      rcases hstate with hcur | hcur
      · rw [fillMethodStep_mean_some value hj (by rw [hcur]; exact hμ)]
        have hfilled : getColIdx (mapColCells df j (fillCell (Cell.num μ))) j
            = col0.map (fillCell (Cell.num μ)) := by
          rw [getColIdx_mapColCells_self hlen, hcur]
        exact ⟨hnames, mapColCells_len _ hlen, Or.inr hfilled,
          fun _ => hfilled, fun _ => hfilled⟩
      · have hvals' : numVals (getColIdx df j) ≠ [] := by
          rw [hcur]
          intro hnil
          rcases List.exists_mem_of_ne_nil _ hvals with ⟨q, hq⟩
          have hq' : Cell.num q ∈ col0.map (fillCell (Cell.num μ)) := by
            rcases List.mem_map.mp (List.mem_map_of_mem (fillCell (Cell.num μ))
              (mem_numVals.mp hq)) with ⟨y, hy, heq⟩
            exact List.mem_map.mpr ⟨Cell.num q, mem_numVals.mp hq, rfl⟩
          have : q ∈ numVals (col0.map (fillCell (Cell.num μ))) := mem_numVals.mpr hq'
          rw [hnil] at this
          cases this
        obtain ⟨ν, hν⟩ := meanVal_isSome hvals'
        rw [fillMethodStep_mean_some value hj hν]
        have hnonull : ∀ x ∈ col0.map (fillCell (Cell.num μ)), x ≠ Cell.null := by
          intro x hx
          rcases List.mem_map.mp hx with ⟨y, hy, rfl⟩
          exact fillCell_ne_null y
        have hkeep : getColIdx (mapColCells df j (fillCell (Cell.num ν))) j
            = col0.map (fillCell (Cell.num μ)) := by
          rw [getColIdx_mapColCells_self hlen, hcur, fill_no_null_map hnonull]
        exact ⟨hnames, mapColCells_len _ hlen, Or.inr hkeep,
          fun _ => hkeep, fun _ => hkeep⟩
    · have hnotc : col' = c → False := by
        intro hcc
        rw [hcc, hc_df] at hj
        injection hj with hj
        exact hji hj.symm
      rcases hmv : meanVal (getColIdx df j) with _ | ν
      · rw [fillMethodStep_mean_none value hj hmv]
        exact ⟨hnames, hlen, hstate, fun hcc => absurd hcc (fun hcc => hnotc hcc),
          fun h => h⟩
      · rw [fillMethodStep_mean_some value hj hmv]
        have hunch : getColIdx (mapColCells df j (fillCell (Cell.num ν))) i
            = getColIdx df i := getColIdx_mapColCells_ne hji
        refine ⟨hnames, mapColCells_len _ hlen, ?_, ?_, ?_⟩
        · rw [hunch]
          exact hstate
        · intro hcc
          exact absurd hcc (fun hcc => hnotc hcc)
        · intro h
          rw [hunch]
          exact h

theorem fillMean_fold_keeps (value : Cell) (c : String) (i : ℕ) (μ : ℚ)
    (names0 : List String) (col0 : List Cell)
    (hci : idxOfName c names0 = some i)
    (hμ : meanVal col0 = some μ)
    (hvals : numVals col0 ≠ []) :
    ∀ (cols : List String) (df : DataFrame),
      df.colNames = names0 →
      (∀ r ∈ df.rows, i < r.length) →
      (getColIdx df i = col0 ∨ getColIdx df i = col0.map (fillCell (Cell.num μ))) →
      getColIdx df i = col0.map (fillCell (Cell.num μ)) →
      getColIdx (cols.foldl (fillMethodStep "mean" value) df) i
        = col0.map (fillCell (Cell.num μ)) := by
  intro cols
  induction cols with
  | nil => exact fun df _ _ _ h => h
  | cons col' rest ih =>
    intro df hnames hlen hstate hfilled
    rw [List.foldl_cons]
    obtain ⟨s1, s2, s3, _, s5⟩ :=
      fillMean_step_inv value c i μ names0 col0 hci hμ hvals col' df hnames hlen hstate
    exact ih _ s1 s2 s3 (s5 hfilled)

theorem fillMean_fold_main (value : Cell) (c : String) (i : ℕ) (μ : ℚ)
    (names0 : List String) (col0 : List Cell)
    (hci : idxOfName c names0 = some i)
    (hμ : meanVal col0 = some μ)
    (hvals : numVals col0 ≠ []) :
    ∀ (cols : List String) (df : DataFrame),
      df.colNames = names0 →
      (∀ r ∈ df.rows, i < r.length) →
      (getColIdx df i = col0 ∨ getColIdx df i = col0.map (fillCell (Cell.num μ))) →
      c ∈ cols →
      getColIdx (cols.foldl (fillMethodStep "mean" value) df) i
        = col0.map (fillCell (Cell.num μ)) := by
  intro cols
  induction cols with
  | nil => intro df _ _ _ hc; cases hc
  | cons col' rest ih =>
    intro df hnames hlen hstate hc
    rw [List.foldl_cons]
    obtain ⟨s1, s2, s3, s4, _⟩ :=
      fillMean_step_inv value c i μ names0 col0 hci hμ hvals col' df hnames hlen hstate
    rcases List.mem_cons.mp hc with hcc | hcc
    · exact fillMean_fold_keeps value c i μ names0 col0 hci hμ hvals rest _
        s1 s2 s3 (s4 hcc.symm)
    · exact ih _ s1 s2 s3 hcc

/-- C3: `fill_nulls(method='mean', columns=cols)` on a column of `cols`
whose cells are all numeric or null, with at least one numeric value and at
least one null, leaves zero nulls in that column, and every null is replaced
by exactly the mean of the column's non-null values taken before filling
(the `value` argument is ignored — the method takes priority). -/
theorem fill_nulls_mean_fills_with_prior_mean (st : Cleaner) (value : Cell)
    (cols : List String) (c : String) (i : ℕ)
    (hc : c ∈ cols)
    (hi : colIdx st.data c = some i)
    (hlen : ∀ r ∈ st.data.rows, i < r.length)
    (hnull : Cell.null ∈ getColIdx st.data i)
    (hvals : numVals (getColIdx st.data i) ≠ []) :
    ∃ μ, meanVal (getColIdx st.data i) = some μ ∧
      getColIdx (fillNulls value (some cols) (some "mean") st).data i
        = (getColIdx st.data i).map (fillCell (Cell.num μ)) ∧
      Cell.null ∉ getColIdx (fillNulls value (some cols) (some "mean") st).data i := by
  obtain ⟨μ, hμ⟩ := meanVal_isSome hvals
  have hdata : (fillNulls value (some cols) (some "mean") st).data
      = cols.foldl (fillMethodStep "mean" value) st.data := by
    cases cols with
    | nil => cases hc
    | cons c0 rest => rfl
  refine ⟨μ, hμ, ?_, ?_⟩
  · rw [hdata]
    exact fillMean_fold_main value c i μ st.data.colNames (getColIdx st.data i)
      hi hμ hvals cols st.data rfl hlen (Or.inl rfl) hc
  · rw [hdata, fillMean_fold_main value c i μ st.data.colNames (getColIdx st.data i)
      hi hμ hvals cols st.data rfl hlen (Or.inl rfl) hc]
    intro hmem
    rcases List.mem_map.mp hmem with ⟨y, hy, heq⟩
    exact fillCell_ne_null y heq

/-- C3 witness: filling `A = [1, null, 3]` by mean uses the prior mean 2 and
leaves no null. -/
theorem fill_nulls_mean_witness :
    ∃ μ, meanVal (getColIdx dfHole 0) = some μ ∧
      getColIdx (fillNulls (Cell.num 0) (some ["A"]) (some "mean")
          { data := dfHole, history := [] }).data 0
        = (getColIdx dfHole 0).map (fillCell (Cell.num μ)) ∧
      Cell.null ∉ getColIdx (fillNulls (Cell.num 0) (some ["A"]) (some "mean")
          { data := dfHole, history := [] }).data 0 :=
  fill_nulls_mean_fills_with_prior_mean { data := dfHole, history := [] }
    (Cell.num 0) ["A"] "A" 0 (by decide) (by decide) (by decide) (by decide)
    (by decide)

end Pipeline
